import Mathlib

/-!
Verification of the live-node-list library (shallow embedding).

The embedding models the current generation of the sources: the `Observable`
base class (delegated-listener registry, lifecycle events, pause/resume),
`LiveNodeList` (collection variant) and `LiveElement` (single-element
variant).  DOM nodes and callback functions are identified by their
reference identity, modelled as natural numbers.  The DOM listener table
(`addEventListener`/`removeEventListener` on a node) is modelled as a
finite set of (node, event-name, callback) triples, which matches the
idempotent DOM listener registration.  The historical
snapshot of `diffNodeList` found in `src/index.js` is modelled separately
as `diffNodeList_v1`.
-/

/-- A DOM node, identified by reference. -/
abbrev Node := Nat

/-- A callback function value, identified by reference. -/
abbrev CB := Nat

/-- A DOM event name (the open string namespace used by `eventListeners`
and `delegatedEvents`). -/
abbrev DomEv := String

/-- A JavaScript value passed as a callback argument: either a function
or some non-function value.  The JavaScript typeof check that rejects a
non-function callback is modelled by `isFunction`. -/
inductive JSVal where
  | func (id : Nat)
  | notFun (id : Nat)
deriving DecidableEq, Repr

def JSVal.isFunction : JSVal → Bool
  | .func _ => true
  | .notFun _ => false

/-- The identity of the value once it is stored in a registry. -/
def JSVal.fid : JSVal → Nat
  | .func i => i
  | .notFun i => i

/-- Errors thrown by the library.  `invalidCallback` is the explicit
TypeError stating that the callback must be a function; `undefinedProperty` is the
implicit `TypeError` raised by JavaScript when a property of `undefined`
is accessed (this is what happens in `on` when the event name is not a
key of `this.events`). -/
inductive JSError where
  | invalidCallback
  | undefinedProperty
deriving DecidableEq, Repr

/-- The lifecycle event namespace: the fixed enumerated names that are
keys of `this.events` in `Observable`, plus arbitrary unknown names. -/
inductive LEvent where
  | update | start | pauseEv | resumeEv
  | elAdd | elRemove | elAttach | elDetach | elPurge
  | delAdd | delRemove | delAttach | delDetach | delPurge
  | unknown (name : String)
deriving DecidableEq, Repr

/-- Observable side effects of an operation, recorded in order. -/
inductive Act where
  | observe
  | disconnect
  | fire (ev : LEvent)
  | fireUpdate (entered left : List Node)
  | fireUpdateItem (newItem oldItem : Option Node)
  | refreshRun
deriving DecidableEq, Repr

/-- An entry of the delegated-listener registry:
`{ target, callback, options }`. -/
structure DelEntry where
  target : Node
  callback : CB
  options : Nat
deriving DecidableEq, Repr

/-- The state owned by the `Observable` base class (shared by both
variants).  `delegatedEventListeners` is the stray property that
`purgeDelegatedEventListeners` assigns to; it is distinct from the
actual registry `delegatedEvents`.  `attached` and `delAttached` model
the DOM-side listener tables for direct and delegated listeners. -/
structure ObsCore where
  parent : Option Node
  events : List (LEvent × List CB)
  eventListeners : List (DomEv × List CB)
  delegatedEvents : List (DomEv × List DelEntry)
  delegatedEventListeners : List (DomEv × List DelEntry)
  attached : Finset (Node × DomEv × CB)
  delAttached : Finset (Node × DomEv × CB)
  observing : Bool
deriving DecidableEq

/-- The collection variant: `Observable` state plus the matched set. -/
structure LNLState where
  core : ObsCore
  items : List Node
deriving DecidableEq

/-- The single-element variant: `Observable` state plus the matched
element (or none). -/
structure LEState where
  core : ObsCore
  item : Option Node
deriving DecidableEq

/-- Association-list lookup keyed by decidable equality (models property
access on a JavaScript object). -/
def findVal {κ β : Type} [DecidableEq κ] : List (κ × β) → κ → Option β
  | [], _ => none
  | p :: rest, k => if p.1 = k then some p.2 else findVal rest k

/-- Replace the value stored under key `k` (models assignment to an
existing property of a JavaScript object). -/
def setVal {κ β : Type} [DecidableEq κ] (reg : List (κ × β)) (k : κ) (v : β) :
    List (κ × β) :=
  reg.map (fun p => if p.1 = k then (k, v) else p)

/-- From `src/src/live-node-list.js` lines 186-188: the items of `a` which are
not present in `b`, comparing by reference identity, in the order of
`a`. -/
def diffNodeList (a b : List Node) : List Node :=
  a.filter (fun item => !(b.contains item))

/-- From `src/index.js` lines 257-259 (historical snapshot): the filter
predicate lacks the negation, so it keeps the items of `a` which ARE
present in `b`. -/
def diffNodeList_v1 (a b : List Node) : List Node :=
  a.filter (fun item => b.contains item)

/-- Ensure the key exists (`if (!(event in reg)) reg[event] = []`), then
push `cb` onto the list stored under `ev`. -/
def pushKey (reg : List (DomEv × List CB)) (ev : DomEv) (cb : CB) :
    List (DomEv × List CB) :=
  let reg' := if (findVal reg ev).isSome then reg else reg ++ [(ev, [])]
  reg'.map (fun p => if p.1 = ev then (p.1, p.2 ++ [cb]) else p)

/-- Same key-ensuring push for the delegated registry. -/
def pushDelKey (reg : List (DomEv × List DelEntry)) (ev : DomEv) (d : DelEntry) :
    List (DomEv × List DelEntry) :=
  let reg' := if (findVal reg ev).isSome then reg else reg ++ [(ev, [])]
  reg'.map (fun p => if p.1 = ev then (p.1, p.2 ++ [d]) else p)

/-- All (node, event, callback) attachment triples induced by the direct
listener registry over a node list. -/
def elPairs (reg : List (DomEv × List CB)) (nodes : List Node) :
    List (Node × DomEv × CB) :=
  reg.flatMap (fun p => p.2.flatMap (fun cb => nodes.map (fun n => (n, p.1, cb))))

/-- All (target, event, callback) triples recorded in the delegated
registry. -/
def delTriples (reg : List (DomEv × List DelEntry)) :
    List (Node × DomEv × CB) :=
  reg.flatMap (fun p => p.2.map (fun d => (d.target, p.1, d.callback)))

/-- The nested `forEach` loops of `attachEventListeners`:
for each event key, for each stored callback, for each node,
`node.addEventListener(event, callback)`. -/
def attachPairs (reg : List (DomEv × List CB)) (nodes : List Node)
    (att : Finset (Node × DomEv × CB)) : Finset (Node × DomEv × CB) :=
  reg.foldl
    (fun att p =>
      p.2.foldl
        (fun att cb => nodes.foldl (fun att n => insert (n, p.1, cb) att) att)
        att)
    att

/-- The nested `forEach` loops of `detachEventListeners`. -/
def detachPairs (reg : List (DomEv × List CB)) (nodes : List Node)
    (att : Finset (Node × DomEv × CB)) : Finset (Node × DomEv × CB) :=
  reg.foldl
    (fun att p =>
      p.2.foldl
        (fun att cb => nodes.foldl (fun att n => att.erase (n, p.1, cb)) att)
        att)
    att

/-- The loops of `attachDelegatedEventListeners`: for each event key, for
each recorded `{target, callback, options}`,
`target.addEventListener(event, callback, options)`. -/
def attachDel (reg : List (DomEv × List DelEntry))
    (att : Finset (Node × DomEv × CB)) : Finset (Node × DomEv × CB) :=
  reg.foldl
    (fun att p =>
      p.2.foldl (fun att d => insert (d.target, p.1, d.callback) att) att)
    att

/-- The loops of `detachDelegatedEventListeners`. -/
def detachDel (reg : List (DomEv × List DelEntry))
    (att : Finset (Node × DomEv × CB)) : Finset (Node × DomEv × CB) :=
  reg.foldl
    (fun att p =>
      p.2.foldl (fun att d => att.erase (d.target, p.1, d.callback)) att)
    att

theorem foldl_insert_mem {α β : Type} [DecidableEq α] (f : β → α)
    (l : List β) (s : Finset α) (x : α) :
    x ∈ l.foldl (fun s b => insert (f b) s) s ↔ x ∈ s ∨ ∃ b ∈ l, f b = x := by
  induction l generalizing s with
  | nil => simp
  | cons b rest ih =>
    simp only [List.foldl_cons, ih, Finset.mem_insert, List.mem_cons]
    constructor
    · rintro ((h | h) | ⟨b', hb', hf⟩)
      · exact Or.inr ⟨b, Or.inl rfl, h.symm⟩
      · exact Or.inl h
      · exact Or.inr ⟨b', Or.inr hb', hf⟩
    · rintro (h | ⟨b', (rfl | hb'), hf⟩)
      · exact Or.inl (Or.inr h)
      · exact Or.inl (Or.inl hf.symm)
      · exact Or.inr ⟨b', hb', hf⟩

theorem foldl_erase_mem {α β : Type} [DecidableEq α] (f : β → α)
    (l : List β) (s : Finset α) (x : α) :
    x ∈ l.foldl (fun s b => s.erase (f b)) s ↔ x ∈ s ∧ ∀ b ∈ l, f b ≠ x := by
  induction l generalizing s with
  | nil => simp
  | cons b rest ih =>
    simp only [List.foldl_cons, ih, Finset.mem_erase, List.mem_cons]
    constructor
    · rintro ⟨⟨hne, hs⟩, hall⟩
      refine ⟨hs, ?_⟩
      rintro b' (rfl | hb')
      · exact fun h => hne h.symm
      · exact hall b' hb'
    · rintro ⟨hs, hall⟩
      exact ⟨⟨fun h => hall b (Or.inl rfl) h.symm, hs⟩,
        fun b' hb' => hall b' (Or.inr hb')⟩

theorem foldl_insert2_mem (e : DomEv) (cbs : List CB) (nodes : List Node)
    (att : Finset (Node × DomEv × CB)) (x : Node × DomEv × CB) :
    x ∈ cbs.foldl
        (fun att cb => nodes.foldl (fun att n => insert (n, e, cb) att) att)
        att
    ↔ x ∈ att ∨ ∃ cb ∈ cbs, ∃ n ∈ nodes, (n, e, cb) = x := by
  induction cbs generalizing att with
  | nil => simp
  | cons cb cbs ih =>
    simp only [List.foldl_cons, ih,
      foldl_insert_mem (fun n => (n, e, cb)), List.mem_cons]
    constructor
    · rintro ((h | ⟨n, hn, hx⟩) | ⟨cb', hcb', h⟩)
      exacts [Or.inl h, Or.inr ⟨cb, Or.inl rfl, n, hn, hx⟩,
        Or.inr ⟨cb', Or.inr hcb', h⟩]
    · rintro (h | ⟨cb', (rfl | hcb'), n, hn, hx⟩)
      exacts [Or.inl (Or.inl h), Or.inl (Or.inr ⟨n, hn, hx⟩),
        Or.inr ⟨cb', hcb', n, hn, hx⟩]

theorem foldl_erase2_mem (e : DomEv) (cbs : List CB) (nodes : List Node)
    (att : Finset (Node × DomEv × CB)) (x : Node × DomEv × CB) :
    x ∈ cbs.foldl
        (fun att cb => nodes.foldl (fun att n => att.erase (n, e, cb)) att)
        att
    ↔ x ∈ att ∧ ¬ ∃ cb ∈ cbs, ∃ n ∈ nodes, (n, e, cb) = x := by
  induction cbs generalizing att with
  | nil => simp
  | cons cb cbs ih =>
    simp only [List.foldl_cons, ih,
      foldl_erase_mem (fun n => (n, e, cb)), List.mem_cons]
    constructor
    · rintro ⟨⟨hs, hall⟩, hno⟩
      refine ⟨hs, ?_⟩
      rintro ⟨cb', (rfl | hcb'), n, hn, hx⟩
      · exact hall n hn hx
      · exact hno ⟨cb', hcb', n, hn, hx⟩
    · rintro ⟨hs, hno⟩
      refine ⟨⟨hs, fun n hn hx => hno ⟨cb, Or.inl rfl, n, hn, hx⟩⟩, ?_⟩
      rintro ⟨cb', hcb', n, hn, hx⟩
      exact hno ⟨cb', Or.inr hcb', n, hn, hx⟩

theorem mem_elPairs (reg : List (DomEv × List CB)) (nodes : List Node)
    (x : Node × DomEv × CB) :
    x ∈ elPairs reg nodes ↔
      ∃ p ∈ reg, ∃ cb ∈ p.2, ∃ n ∈ nodes, (n, p.1, cb) = x := by
  simp [elPairs, List.mem_flatMap, List.mem_map]

theorem mem_delTriples (reg : List (DomEv × List DelEntry))
    (x : Node × DomEv × CB) :
    x ∈ delTriples reg ↔
      ∃ p ∈ reg, ∃ d ∈ p.2, (d.target, p.1, d.callback) = x := by
  simp [delTriples, List.mem_flatMap, List.mem_map]

theorem mem_attachPairs (reg : List (DomEv × List CB)) (nodes : List Node)
    (att : Finset (Node × DomEv × CB)) (x : Node × DomEv × CB) :
    x ∈ attachPairs reg nodes att ↔ x ∈ att ∨ x ∈ elPairs reg nodes := by
  rw [mem_elPairs]
  induction reg generalizing att with
  | nil => simp [attachPairs]
  | cons p rest ih =>
    simp only [attachPairs, List.foldl_cons] at *
    rw [ih, foldl_insert2_mem]
    simp only [List.mem_cons]
    constructor
    · rintro ((h | ⟨cb, hcb, n, hn, hx⟩) | ⟨q, hq, h⟩)
      exacts [Or.inl h, Or.inr ⟨p, Or.inl rfl, cb, hcb, n, hn, hx⟩,
        Or.inr ⟨q, Or.inr hq, h⟩]
    · rintro (h | ⟨q, (rfl | hq), h⟩)
      exacts [Or.inl (Or.inl h), Or.inl (Or.inr h), Or.inr ⟨q, hq, h⟩]

theorem mem_detachPairs (reg : List (DomEv × List CB)) (nodes : List Node)
    (att : Finset (Node × DomEv × CB)) (x : Node × DomEv × CB) :
    x ∈ detachPairs reg nodes att ↔ x ∈ att ∧ x ∉ elPairs reg nodes := by
  rw [mem_elPairs]
  induction reg generalizing att with
  | nil => simp [detachPairs]
  | cons p rest ih =>
    simp only [detachPairs, List.foldl_cons] at *
    rw [ih, foldl_erase2_mem]
    simp only [List.mem_cons]
    constructor
    · rintro ⟨⟨hs, hno1⟩, hno2⟩
      refine ⟨hs, ?_⟩
      rintro ⟨q, (rfl | hq), h⟩
      · exact hno1 h
      · exact hno2 ⟨q, hq, h⟩
    · rintro ⟨hs, hno⟩
      refine ⟨⟨hs, fun h => hno ⟨p, Or.inl rfl, h⟩⟩, ?_⟩
      rintro ⟨q, hq, h⟩
      exact hno ⟨q, Or.inr hq, h⟩

theorem mem_attachDel (reg : List (DomEv × List DelEntry))
    (att : Finset (Node × DomEv × CB)) (x : Node × DomEv × CB) :
    x ∈ attachDel reg att ↔ x ∈ att ∨ x ∈ delTriples reg := by
  rw [mem_delTriples]
  induction reg generalizing att with
  | nil => simp [attachDel]
  | cons p rest ih =>
    simp only [attachDel, List.foldl_cons] at *
    rw [ih, foldl_insert_mem (fun d : DelEntry => (d.target, p.1, d.callback))]
    simp only [List.mem_cons]
    constructor
    · rintro ((h | ⟨d, hd, hx⟩) | ⟨q, hq, h⟩)
      exacts [Or.inl h, Or.inr ⟨p, Or.inl rfl, d, hd, hx⟩,
        Or.inr ⟨q, Or.inr hq, h⟩]
    · rintro (h | ⟨q, (rfl | hq), h⟩)
      exacts [Or.inl (Or.inl h), Or.inl (Or.inr h), Or.inr ⟨q, hq, h⟩]

theorem mem_detachDel (reg : List (DomEv × List DelEntry))
    (att : Finset (Node × DomEv × CB)) (x : Node × DomEv × CB) :
    x ∈ detachDel reg att ↔ x ∈ att ∧ x ∉ delTriples reg := by
  rw [mem_delTriples]
  induction reg generalizing att with
  | nil => simp [detachDel]
  | cons p rest ih =>
    simp only [detachDel, List.foldl_cons] at *
    rw [ih, foldl_erase_mem (fun d : DelEntry => (d.target, p.1, d.callback))]
    simp only [List.mem_cons]
    constructor
    · rintro ⟨⟨hs, hall⟩, hno⟩
      refine ⟨hs, ?_⟩
      rintro ⟨q, (rfl | hq), d, hd, hx⟩
      · exact hall d hd hx
      · exact hno ⟨q, hq, d, hd, hx⟩
    · rintro ⟨hs, hno⟩
      refine ⟨⟨hs, fun d hd hx => hno ⟨p, Or.inl rfl, d, hd, hx⟩⟩, ?_⟩
      rintro ⟨q, hq, d, hd, hx⟩
      exact hno ⟨q, Or.inr hq, d, hd, hx⟩

/-- Model of `Observable.on` (src/unnamed/part_000 lines 102-111): type-check the
callback, then `this.events[event].push(callback)`.  When `event` is not
a key of `this.events`, the property access yields `undefined` and the
`.push` call throws the implicit `TypeError`, before any mutation. -/
def Obs.on (s : ObsCore) (e : LEvent) (cb : JSVal) : Option JSError × ObsCore :=
  if cb.isFunction = false then (some .invalidCallback, s)
  else
    match findVal s.events e with
    | none => (some .undefinedProperty, s)
    | some l => (none, { s with events := setVal s.events e (l ++ [cb.fid]) })

/-- Model of `Observable.off` (src/unnamed/part_000 lines 121-135): type-check the
callback; if the event is a known key, remove the first occurrence of the
callback (indexOf + splice); unknown event names are silently skipped. -/
def Obs.off (s : ObsCore) (e : LEvent) (cb : JSVal) : Option JSError × ObsCore :=
  if cb.isFunction = false then (some .invalidCallback, s)
  else
    match findVal s.events e with
    | none => (none, s)
    | some l => (none, { s with events := setVal s.events e (l.erase cb.fid) })

/-- Model of `Observable.attachDelegatedEventListeners` (part_000 lines 208-218). -/
def Obs.attachDelegatedEventListeners (c : ObsCore) : ObsCore × List Act :=
  ({ c with delAttached := attachDel c.delegatedEvents c.delAttached },
   [Act.fire .delAttach])

/-- Model of `Observable.detachDelegatedEventListeners` (part_000 lines 223-233). -/
def Obs.detachDelegatedEventListeners (c : ObsCore) : ObsCore × List Act :=
  ({ c with delAttached := detachDel c.delegatedEvents c.delAttached },
   [Act.fire .delDetach])

/-- Model of `Observable.purgeDelegatedEventListeners` (part_000 lines 238-244):
detach all delegated listeners, then assign `{}` to the property named
`delegatedEventListeners` — which is not the registry (`delegatedEvents`). -/
def Obs.purgeDelegatedEventListeners (c : ObsCore) : ObsCore × List Act :=
  let r := Obs.detachDelegatedEventListeners c
  ({ r.1 with delegatedEventListeners := [] }, r.2 ++ [Act.fire .delPurge])

/-- Model of `Observable.addDelegatedEventListener` (part_000 lines 156-177).
`nonEmpty` is the value of the matched-set check (for a collection, the
key items is present and the list is non-empty; for a single element, the
key item is present and truthy), supplied by the variant wrappers.  The `target instanceof Element ||
Window || HTMLDocument` guard accepts every modelled node. -/
def Obs.addDelegatedEventListener (c : ObsCore) (nonEmpty : Bool)
    (target : Node) (ev : DomEv) (cb : JSVal) (opts : Nat) :
    Option JSError × ObsCore × List Act :=
  if cb.isFunction = false then (some .invalidCallback, c, [])
  else
    let c1 := { c with
      delegatedEvents := pushDelKey c.delegatedEvents ev ⟨target, cb.fid, opts⟩ }
    let c2 := if nonEmpty then
        { c1 with delAttached := insert (target, ev, cb.fid) c1.delAttached }
      else c1
    (none, c2, [Act.fire .delAdd])

/-- Model of `Observable.pause` (part_000 lines 262-267). -/
def Obs.pause (c : ObsCore) : ObsCore × List Act :=
  ({ c with observing := false }, [Act.disconnect, Act.fire .pauseEv])

/-- Model of `Observable.resume` (part_000 lines 272-279): re-observe the parent
when present, then fire the `resume` lifecycle event.  This version does
not invoke `refresh`. -/
def Obs.resume (c : ObsCore) : ObsCore × List Act :=
  let r := if c.parent.isSome then
      (({ c with observing := true } : ObsCore), [Act.observe])
    else (c, [])
  (r.1, r.2 ++ [Act.fire .resumeEv])

/-- Model of `LiveNodeList.addEventListener` (live-node-list.js lines 69-82):
record the callback under the event, attach it to every current item,
fire `eventListeners:add`.  The `passive` parameter appears in the
signature but is never used. -/
def LNL.addEventListener (s : LNLState) (ev : DomEv) (cb : CB)
    (passive : Bool) : LNLState × List Act :=
  let c1 := { s.core with eventListeners := pushKey s.core.eventListeners ev cb }
  let c2 := { c1 with
    attached := s.items.foldl (fun att n => insert (n, ev, cb) att) c1.attached }
  ({ s with core := c2 }, [Act.fire .elAdd])

/-- Model of `LiveNodeList.attachEventListeners` (live-node-list.js lines 111-126).
A `List Node` argument always passes the `Array.isArray || instanceof
NodeList` container check. -/
def LNL.attachEventListeners (s : LNLState) (nodes : List Node) :
    LNLState × List Act :=
  ({ s with core := { s.core with
      attached := attachPairs s.core.eventListeners nodes s.core.attached } },
   [Act.fire .elAttach])

/-- Model of `LiveNodeList.detachEventListeners` (live-node-list.js lines 133-148). -/
def LNL.detachEventListeners (s : LNLState) (nodes : List Node) :
    LNLState × List Act :=
  ({ s with core := { s.core with
      attached := detachPairs s.core.eventListeners nodes s.core.attached } },
   [Act.fire .elDetach])

/-- Model of `LiveNodeList.refresh` (live-node-list.js lines 153-175).  `selected`
is the result of `parent.querySelectorAll(selector)`, supplied by the
host DOM. -/
def LNL.refresh (s : LNLState) (selected : List Node) : LNLState × List Act :=
  let current := s.items
  let newItems := diffNodeList selected current
  let oldItems := diffNodeList current selected
  let r1 :=
    if 0 < newItems.length ∨ 0 < oldItems.length then
      let ra := LNL.detachEventListeners s oldItems
      let rb := LNL.attachEventListeners ra.1 newItems
      (({ rb.1 with items := selected } : LNLState),
       ra.2 ++ rb.2 ++ [Act.fireUpdate newItems oldItems])
    else (s, [])
  let r2 :=
    if 0 < r1.1.items.length then Obs.attachDelegatedEventListeners r1.1.core
    else Obs.detachDelegatedEventListeners r1.1.core
  ({ r1.1 with core := r2.1 }, Act.refreshRun :: (r1.2 ++ r2.2))

/-- Model of the `LiveNodeList` wrapper for `addDelegatedEventListener`: on a
collection instance the matched-set check reads
`this.items.length > 0`. -/
def LNL.addDelegatedEventListener (s : LNLState) (target : Node) (ev : DomEv)
    (cb : JSVal) (opts : Nat) : Option JSError × LNLState × List Act :=
  let r := Obs.addDelegatedEventListener s.core (decide (0 < s.items.length))
    target ev cb opts
  (r.1, { s with core := r.2.1 }, r.2.2)

/-- Model of `LiveElement.addEventListener` (live-element.js lines 35-48): record
the callback, attach it to the current item when present, fire
`eventListeners:add`.  The `passive` parameter is never used. -/
def LE.addEventListener (s : LEState) (ev : DomEv) (cb : CB)
    (passive : Bool) : LEState × List Act :=
  let c1 := { s.core with eventListeners := pushKey s.core.eventListeners ev cb }
  let c2 := match s.item with
    | some n => { c1 with attached := insert (n, ev, cb) c1.attached }
    | none => c1
  ({ s with core := c2 }, [Act.fire .elAdd])

/-- Model of `LiveElement.attachEventListeners` (live-element.js lines 77-94):
`if (!item) return` happens before anything else, so an absent item
produces no attachment and no `eventListeners:attach` firing. -/
def LE.attachEventListeners (s : LEState) (item : Option Node) :
    LEState × List Act :=
  match item with
  | none => (s, [])
  | some n =>
    ({ s with core := { s.core with
        attached := attachPairs s.core.eventListeners [n] s.core.attached } },
     [Act.fire .elAttach])

/-- Model of `LiveElement.detachEventListeners` (live-element.js lines 101-118). -/
def LE.detachEventListeners (s : LEState) (item : Option Node) :
    LEState × List Act :=
  match item with
  | none => (s, [])
  | some n =>
    ({ s with core := { s.core with
        attached := detachPairs s.core.eventListeners [n] s.core.attached } },
     [Act.fire .elDetach])

/-- Model of `LiveElement.refresh` (live-element.js lines 123-142).  `selected` is
the result of `parent.querySelector(selector)` (possibly null). -/
def LE.refresh (s : LEState) (selected : Option Node) : LEState × List Act :=
  let current := s.item
  let r1 :=
    if current ≠ selected then
      let ra := LE.detachEventListeners s current
      let rb := LE.attachEventListeners ra.1 selected
      (({ rb.1 with item := selected } : LEState),
       ra.2 ++ rb.2 ++ [Act.fireUpdateItem selected current])
    else (s, [])
  let r2 :=
    if r1.1.item.isSome then Obs.attachDelegatedEventListeners r1.1.core
    else Obs.detachDelegatedEventListeners r1.1.core
  ({ r1.1 with core := r2.1 }, Act.refreshRun :: (r1.2 ++ r2.2))

/-- The `update` firings (with their arguments) contained in a log. -/
def updateFires (l : List Act) : List (List Node × List Node) :=
  l.filterMap (fun a => match a with
    | .fireUpdate entered left => some (entered, left)
    | _ => none)

/-- The single-element `update` firings contained in a log. -/
def updateItemFires (l : List Act) : List (Option Node × Option Node) :=
  l.filterMap (fun a => match a with
    | .fireUpdateItem n o => some (n, o)
    | _ => none)

/-- The delegated-listener invariant of the collection variant: every
entry recorded in `delegatedEvents` is attached to its target exactly
when the matched set is non-empty. -/
def LNL.delegatedInv (s : LNLState) : Prop :=
  ∀ p ∈ s.core.delegatedEvents, ∀ d ∈ p.2,
    ((d.target, p.1, d.callback) ∈ s.core.delAttached ↔ s.items ≠ [])

/-- Every delegated attachment present in the DOM is recorded in the
registry (holds in every reachable state; `delAttached` starts empty and
only `attachDelegatedEventListeners` adds to it, from the registry). -/
def LNL.delegatedNoStale (s : LNLState) : Prop :=
  ∀ x ∈ s.core.delAttached, x ∈ delTriples s.core.delegatedEvents

/-- The initial lifecycle-event registry of `Observable`
(part_000 lines 43-58): the fixed enumerated keys, each with no
subscribers. -/
def initEvents : List (LEvent × List CB) :=
  [(.update, []), (.start, []), (.pauseEv, []), (.resumeEv, []),
   (.elAdd, []), (.elRemove, []), (.elAttach, []), (.elDetach, []),
   (.elPurge, []),
   (.delAdd, []), (.delRemove, []), (.delAttach, []), (.delDetach, []),
   (.delPurge, [])]

/-- A freshly constructed `Observable` core. -/
def ObsCore.init (parent : Option Node) : ObsCore :=
  { parent := parent, events := initEvents, eventListeners := [],
    delegatedEvents := [], delegatedEventListeners := [],
    attached := ∅, delAttached := ∅, observing := false }

theorem findVal_setVal {κ β : Type} [DecidableEq κ] (reg : List (κ × β))
    (k : κ) (v : β) (h : (findVal reg k).isSome) :
    findVal (setVal reg k v) k = some v := by
  induction reg with
  | nil => simp [findVal] at h
  | cons p rest ih =>
    by_cases hk : p.1 = k
    · simp [findVal, setVal, hk]
    · simp only [findVal, setVal, hk, if_false, List.map_cons] at h ⊢
      simpa [findVal, hk] using ih (by simpa [findVal, hk] using h)

theorem findVal_isSome_iff {κ β : Type} [DecidableEq κ]
    (reg : List (κ × β)) (k : κ) :
    (findVal reg k).isSome = true ↔ ∃ p ∈ reg, p.1 = k := by
  induction reg with
  | nil => simp [findVal]
  | cons p rest ih =>
    by_cases hk : p.1 = k
    · simp [findVal, hk]
    · simp [findVal, hk, ih]

/-- C1: with `items` the previous matched set and `selected` the fresh
selector result, the diff is claimed to compute `entered = selected −
items` and `left = items − selected` under reference identity, preserving
source order.  The maintained implementation
(src/src/live-node-list.js `diffNodeList`) does compute exactly this, as
the last two conjuncts show in general; but the historical snapshot
src/index.js lines 257-259 omits the negation in the filter predicate and
returns the intersection instead, contradicting its own doc comment
("items in NodeList a which are not present in NodeList b"): at
`a = [0]`, `b = [1]` it returns `[]` where the claim requires `[0]`. -/
theorem C1_diff_code_bug :
    (diffNodeList_v1 [0] [1] = [] ∧ diffNodeList [0] [1] = [0]) ∧
    (∀ (a b : List Node) (x : Node),
      x ∈ diffNodeList a b ↔ x ∈ a ∧ x ∉ b) ∧
    (∀ a b : List Node, (diffNodeList a b).Sublist a) := by
  refine ⟨⟨rfl, rfl⟩, ?_, ?_⟩
  · intro a b x
    simp [diffNodeList]
  · intro a b
    exact List.filter_sublist a

/-- C9: the diff computed by `diffNodeList`
(src/src/live-node-list.js) satisfies `entered ∩ left = ∅` and
`entered ∪ (items \ left) = selected`, as sets under reference
identity. -/
theorem C9_diff_algebra (items selected : List Node) :
    (∀ x : Node, ¬(x ∈ diffNodeList selected items ∧
      x ∈ diffNodeList items selected)) ∧
    (∀ x : Node, x ∈ selected ↔
      (x ∈ diffNodeList selected items ∨
        (x ∈ items ∧ x ∉ diffNodeList items selected))) := by
  constructor
  · intro x
    rintro ⟨h1, h2⟩
    simp [diffNodeList] at h1 h2
    exact h1.2 h2.1
  · intro x
    by_cases hi : x ∈ items <;> by_cases hs : x ∈ selected <;>
      simp [diffNodeList, hi, hs]

/-- C10: the `passive` parameter of `addEventListener` is ignored in
both variants (src/src/live-node-list.js lines 69-82 and
src/src/live-element.js lines 35-48): any two values of the argument
yield identical registry state, identical attachments and identical
fired events. -/
theorem C10_passive_ignored (sN : LNLState) (sE : LEState) (ev : DomEv)
    (cb : CB) (p1 p2 : Bool) :
    LNL.addEventListener sN ev cb p1 = LNL.addEventListener sN ev cb p2 ∧
    LE.addEventListener sE ev cb p1 = LE.addEventListener sE ev cb p2 :=
  ⟨rfl, rfl⟩

/-- C4 counterexample: in the current `Observable.resume`
(src/unnamed/part_000 lines 272-279), resuming a freshly constructed
core with a present parent performs zero `refresh` invocations, not the
one forced refresh the claim requires. -/
theorem C4_counterexample :
    (Obs.resume (ObsCore.init (some 0))).2.count Act.refreshRun ≠ 1 := by
  decide

/-- C4 amended: `resume()` with a present parent re-establishes the
subtree-mutation subscription and fires the `resume` lifecycle event, but
performs no refresh itself; the forced synchronous refresh exists only in
the historical snapshot src/src/observable.js lines 140-156. -/
theorem C4_resume_no_refresh (c : ObsCore) (h : c.parent.isSome = true) :
    (Obs.resume c).1 = { c with observing := true } ∧
    (Obs.resume c).2 = [Act.observe, Act.fire .resumeEv] ∧
    (Obs.resume c).2.count Act.refreshRun = 0 := by
  have h2 : (Obs.resume c).2 = [Act.observe, Act.fire .resumeEv] := by
    simp [Obs.resume, h]
  refine ⟨by simp [Obs.resume, h], h2, ?_⟩
  rw [h2]
  decide

theorem C4_resume_no_refresh_witness :
    (ObsCore.init (some 0)).parent.isSome = true ∧
    (Obs.resume (ObsCore.init (some 0))).2.count Act.refreshRun = 0 :=
  ⟨by decide, (C4_resume_no_refresh (ObsCore.init (some 0)) (by decide)).2.2⟩

/-- The concrete core used to exhibit the `purgeDelegatedEventListeners`
bug: one delegated listener registered and currently attached. -/
def purgeCore : ObsCore :=
  { ObsCore.init (some 0) with
      delegatedEvents := [("c", [⟨1, 2, 0⟩])],
      delAttached := {(1, "c", 2)} }

/-- C5: `purgeDelegatedEventListeners` (src/unnamed/part_000 lines
238-244) detaches every delegated listener, but assigns `{}` to the
property `delegatedEventListeners` instead of the registry
`delegatedEvents`, so the registry is NOT cleared: after the call it
still holds the recorded entry. -/
theorem C5_purge_code_bug :
    (Obs.purgeDelegatedEventListeners purgeCore).1.delAttached = ∅ ∧
    (Obs.purgeDelegatedEventListeners purgeCore).1.delegatedEvents =
      [("c", [⟨1, 2, 0⟩])] ∧
    (Obs.purgeDelegatedEventListeners purgeCore).1.delegatedEvents ≠ [] := by
  refine ⟨by decide, rfl, by decide⟩

/-- C7 counterexample: `off` with a valid callback and an event name
outside the enumerated set raises nothing and returns with the state
unchanged (the `event in this.events` guard silently skips unknown
names), contradicting the claim that `off` raises an UnknownEvent
condition exactly when the event name is outside the enumerated set. -/
theorem C7_counterexample :
    (Obs.off (ObsCore.init (some 0)) (.unknown "bogus") (.func 0)).1 = none ∧
    (Obs.off (ObsCore.init (some 0)) (.unknown "bogus") (.func 0)).2 =
      ObsCore.init (some 0) := by
  constructor <;> decide

/-- C7 amended: `on` raises exactly when the callback is not invocable or
the event name is outside the enumerated registry keys (the latter as the
implicit TypeError from `undefined.push`); `off` raises exactly when the
callback is not invocable, and silently no-ops on unknown event names; in
every failure case the error is raised with all state unchanged. -/
theorem C7_on_off_errors (s : ObsCore) (e : LEvent) (cb : JSVal) :
    ((Obs.on s e cb).1.isSome = true ↔
      (cb.isFunction = false ∨ findVal s.events e = none)) ∧
    ((Obs.on s e cb).1.isSome = true → (Obs.on s e cb).2 = s) ∧
    ((Obs.off s e cb).1.isSome = true ↔ cb.isFunction = false) ∧
    ((Obs.off s e cb).1.isSome = true → (Obs.off s e cb).2 = s) := by
  by_cases hf : cb.isFunction = false
  · simp [Obs.on, Obs.off, hf]
  · have hf' : cb.isFunction = true := by
      revert hf
      cases cb.isFunction <;> simp
    cases hfind : findVal s.events e with
    | none => simp [Obs.on, Obs.off, hf', hfind]
    | some l => simp [Obs.on, Obs.off, hf', hfind]

theorem C7_on_off_errors_witness :
    (Obs.on (ObsCore.init none) LEvent.update (JSVal.notFun 7)).1.isSome =
      true ∧
    (Obs.on (ObsCore.init none) LEvent.update (JSVal.notFun 7)).2 =
      ObsCore.init none ∧
    (Obs.off (ObsCore.init none) LEvent.update (JSVal.notFun 7)).2 =
      ObsCore.init none := by
  have h := C7_on_off_errors (ObsCore.init none) LEvent.update (JSVal.notFun 7)
  exact ⟨by decide, h.2.1 (by decide), h.2.2.2 (by decide)⟩

theorem erase_append_self (l : List CB) (c : CB) :
    ((l ++ [c]).erase c).Perm l ∧ (c ∉ l → (l ++ [c]).erase c = l) := by
  constructor
  · by_cases hc : c ∈ l
    · rw [List.erase_append_left _ hc]
      exact (List.perm_append_singleton c (l.erase c)).trans
        (List.perm_cons_erase hc).symm
    · rw [List.erase_append_right _ hc]
      simp
  · intro hc
    rw [List.erase_append_right _ hc]
    simp

/-- The concrete core used for C6: the `update` subscriber list already
contains callback 0 (then callback 1). -/
def dupCore : ObsCore :=
  { ObsCore.init (some 0) with events := setVal initEvents LEvent.update [0, 1] }

/-- C6 counterexample: with prior subscriber list `[0, 1]` for `update`,
`on(update, cb0)` pushes to the end giving `[0, 1, 0]` and
`off(update, cb0)` removes the FIRST occurrence, leaving `[1, 0]` — not
the original ordered sequence `[0, 1]`. -/
theorem C6_counterexample :
    findVal (Obs.off (Obs.on dupCore LEvent.update (JSVal.func 0)).2
        LEvent.update (JSVal.func 0)).2.events LEvent.update ≠
      findVal dupCore.events LEvent.update := by
  decide

/-- C6 amended: `on(e, cb)` immediately followed by `off(e, cb)` leaves
the subscriber list for `e` a permutation (equal multiset) of what it was
before `on`; when `cb` was not already present the list is exactly
unchanged as an ordered sequence.  (When `cb` was already present, `on`
appends a second copy and `off` removes the first occurrence, so the
order changes, as the counterexample shows.) -/
theorem C6_on_off_list (s : ObsCore) (e : LEvent) (cb : JSVal)
    (hf : cb.isFunction = true) (l : List CB)
    (hl : findVal s.events e = some l) :
    ∃ l', findVal (Obs.off (Obs.on s e cb).2 e cb).2.events e = some l' ∧
      l'.Perm l ∧ (cb.fid ∉ l → l' = l) := by
  have hfind1 : findVal (Obs.on s e cb).2.events e = some (l ++ [cb.fid]) := by
    simp only [Obs.on, hf, hl]
    exact findVal_setVal _ _ _ (by rw [hl]; rfl)
  have hstep : (Obs.off (Obs.on s e cb).2 e cb).2.events =
      setVal (Obs.on s e cb).2.events e ((l ++ [cb.fid]).erase cb.fid) := by
    simp only [Obs.off, hf, hfind1]
    rfl
  have hfind2 : findVal (Obs.off (Obs.on s e cb).2 e cb).2.events e =
      some ((l ++ [cb.fid]).erase cb.fid) := by
    rw [hstep]
    exact findVal_setVal _ _ _ (by rw [hfind1]; rfl)
  exact ⟨(l ++ [cb.fid]).erase cb.fid, hfind2,
    (erase_append_self l cb.fid).1, (erase_append_self l cb.fid).2⟩

theorem C6_on_off_list_witness :
    ∃ l', findVal (Obs.off (Obs.on dupCore LEvent.update (JSVal.func 0)).2
        LEvent.update (JSVal.func 0)).2.events LEvent.update = some l' ∧
      l'.Perm [0, 1] ∧ ((JSVal.func 0).fid ∉ [0, 1] → l' = [0, 1]) :=
  C6_on_off_list dupCore LEvent.update (JSVal.func 0) (by decide) [0, 1]
    (by decide)

/-- C8: in `LiveElement.refresh` (src/src/live-element.js lines 123-142),
when the fresh selector result is reference-identical to the stored
`item`, the item is unchanged, the direct-listener attachments are
untouched and no `update` fires; the delegated-listener activation is
still re-evaluated: every registered delegated listener ends attached
exactly when `item` is present. -/
theorem C8_refresh_same_item (s : LEState) (selected : Option Node)
    (h : selected = s.item) :
    (LE.refresh s selected).1.item = s.item ∧
    (LE.refresh s selected).1.core.attached = s.core.attached ∧
    updateItemFires (LE.refresh s selected).2 = [] ∧
    (∀ p ∈ (LE.refresh s selected).1.core.delegatedEvents, ∀ d ∈ p.2,
      ((d.target, p.1, d.callback) ∈ (LE.refresh s selected).1.core.delAttached
        ↔ s.item.isSome = true)) := by
  by_cases hi : s.item.isSome = true
  · have hr : LE.refresh s selected =
        ({ s with core := { s.core with
            delAttached := attachDel s.core.delegatedEvents s.core.delAttached } },
         [Act.refreshRun, Act.fire .delAttach]) := by
      simp [LE.refresh, h, hi, Obs.attachDelegatedEventListeners]
    rw [hr]
    refine ⟨rfl, rfl, rfl, ?_⟩
    intro p hp d hd
    simp only [mem_attachDel, hi, iff_true]
    exact Or.inr ((mem_delTriples _ _).mpr ⟨p, hp, d, hd, rfl⟩)
  · have hr : LE.refresh s selected =
        ({ s with core := { s.core with
            delAttached := detachDel s.core.delegatedEvents s.core.delAttached } },
         [Act.refreshRun, Act.fire .delDetach]) := by
      simp [LE.refresh, h, hi, Obs.detachDelegatedEventListeners]
    rw [hr]
    refine ⟨rfl, rfl, rfl, ?_⟩
    intro p hp d hd
    rw [mem_detachDel]
    constructor
    · rintro ⟨-, hno⟩
      exact (hno ((mem_delTriples _ _).mpr ⟨p, hp, d, hd, rfl⟩)).elim
    · intro hcontra
      exact (hi hcontra).elim

/-- A concrete single-element state used as the C8 witness input. -/
def leW : LEState :=
  { core := { ObsCore.init (some 0) with
      delegatedEvents := [("c", [⟨2, 3, 0⟩])] },
    item := some 5 }

theorem C8_refresh_same_item_witness :
    (some 5 = leW.item) ∧
    (LE.refresh leW (some 5)).1.item = leW.item ∧
    updateItemFires (LE.refresh leW (some 5)).2 = [] :=
  ⟨rfl, (C8_refresh_same_item leW (some 5) rfl).1,
    (C8_refresh_same_item leW (some 5) rfl).2.2.1⟩

/-- C2: on each collection refresh (src/src/live-node-list.js lines
153-175), if both `entered` and `left` are empty no direct detach/attach
occurs, `items` is unchanged and no `update` fires; otherwise the direct
listeners are detached from `left` and attached to `entered` (expressed
extensionally on the DOM attachment table), `items` becomes the fresh
selector result, and `update` fires exactly once with
`(entered, left)`. -/
theorem C2_refresh_reconcile (s : LNLState) (selected : List Node) :
    (diffNodeList selected s.items = [] ∧ diffNodeList s.items selected = [] →
      (LNL.refresh s selected).1.items = s.items ∧
      (LNL.refresh s selected).1.core.attached = s.core.attached ∧
      updateFires (LNL.refresh s selected).2 = [] ∧
      (LNL.refresh s selected).2.count (Act.fire .elDetach) = 0 ∧
      (LNL.refresh s selected).2.count (Act.fire .elAttach) = 0) ∧
    (¬(diffNodeList selected s.items = [] ∧ diffNodeList s.items selected = []) →
      (LNL.refresh s selected).1.items = selected ∧
      updateFires (LNL.refresh s selected).2 =
        [(diffNodeList selected s.items, diffNodeList s.items selected)] ∧
      ∀ x : Node × DomEv × CB,
        x ∈ (LNL.refresh s selected).1.core.attached ↔
          (x ∈ elPairs s.core.eventListeners (diffNodeList selected s.items) ∨
            (x ∈ s.core.attached ∧
              x ∉ elPairs s.core.eventListeners (diffNodeList s.items selected)))) := by
  constructor
  · rintro ⟨h1, h2⟩
    by_cases hlen : 0 < s.items.length
    · have hr : LNL.refresh s selected =
          ({ s with core := { s.core with
              delAttached := attachDel s.core.delegatedEvents s.core.delAttached } },
           [Act.refreshRun, Act.fire .delAttach]) := by
        simp [LNL.refresh, h1, h2, hlen, Obs.attachDelegatedEventListeners]
      rw [hr]
      exact ⟨rfl, rfl, rfl, rfl, rfl⟩
    · have hr : LNL.refresh s selected =
          ({ s with core := { s.core with
              delAttached := detachDel s.core.delegatedEvents s.core.delAttached } },
           [Act.refreshRun, Act.fire .delDetach]) := by
        simp [LNL.refresh, h1, h2, hlen, Obs.detachDelegatedEventListeners]
      rw [hr]
      exact ⟨rfl, rfl, rfl, rfl, rfl⟩
  · intro hne
    have hcond : 0 < (diffNodeList selected s.items).length ∨
        0 < (diffNodeList s.items selected).length := by
      rcases not_and_or.mp hne with h | h
      · exact Or.inl (List.length_pos.mpr h)
      · exact Or.inr (List.length_pos.mpr h)
    by_cases hlen : 0 < selected.length
    · have hr : LNL.refresh s selected =
          ({ s with
              core := { s.core with
                attached := attachPairs s.core.eventListeners
                  (diffNodeList selected s.items)
                  (detachPairs s.core.eventListeners
                    (diffNodeList s.items selected) s.core.attached),
                delAttached := attachDel s.core.delegatedEvents
                  s.core.delAttached },
              items := selected },
           [Act.refreshRun, Act.fire .elDetach, Act.fire .elAttach,
            Act.fireUpdate (diffNodeList selected s.items)
              (diffNodeList s.items selected), Act.fire .delAttach]) := by
        simp [LNL.refresh, LNL.detachEventListeners, LNL.attachEventListeners,
          Obs.attachDelegatedEventListeners, hcond, hlen]
      rw [hr]
      refine ⟨rfl, rfl, ?_⟩
      intro x
      rw [mem_attachPairs, mem_detachPairs]
      tauto
    · have hr : LNL.refresh s selected =
          ({ s with
              core := { s.core with
                attached := attachPairs s.core.eventListeners
                  (diffNodeList selected s.items)
                  (detachPairs s.core.eventListeners
                    (diffNodeList s.items selected) s.core.attached),
                delAttached := detachDel s.core.delegatedEvents
                  s.core.delAttached },
              items := selected },
           [Act.refreshRun, Act.fire .elDetach, Act.fire .elAttach,
            Act.fireUpdate (diffNodeList selected s.items)
              (diffNodeList s.items selected), Act.fire .delDetach]) := by
        simp [LNL.refresh, LNL.detachEventListeners, LNL.attachEventListeners,
          Obs.detachDelegatedEventListeners, hcond, hlen]
      rw [hr]
      refine ⟨rfl, rfl, ?_⟩
      intro x
      rw [mem_attachPairs, mem_detachPairs]
      tauto

/-- A concrete collection state whose refresh takes the no-change branch. -/
def c2Skip : LNLState := { core := ObsCore.init (some 0), items := [1] }

/-- A concrete collection state with one registered listener and two
matched items; refreshing against `[2, 3]` drops node 1 and adds node 3. -/
def c2Act : LNLState :=
  { core := { ObsCore.init (some 0) with
      eventListeners := [("c", [7])],
      attached := {(1, "c", 7), (2, "c", 7)} },
    items := [1, 2] }

theorem C2_refresh_reconcile_witness :
    ((LNL.refresh c2Skip [1]).1.items = c2Skip.items ∧
      updateFires (LNL.refresh c2Skip [1]).2 = []) ∧
    ((LNL.refresh c2Act [2, 3]).1.items = [2, 3] ∧
      updateFires (LNL.refresh c2Act [2, 3]).2 =
        [(diffNodeList [2, 3] c2Act.items, diffNodeList c2Act.items [2, 3])] ∧
      ((2, "c", 7) ∈ (LNL.refresh c2Act [2, 3]).1.core.attached ↔
        ((2, "c", 7) ∈ elPairs c2Act.core.eventListeners
            (diffNodeList [2, 3] c2Act.items) ∨
          ((2, "c", 7) ∈ c2Act.core.attached ∧
            (2, "c", 7) ∉ elPairs c2Act.core.eventListeners
              (diffNodeList c2Act.items [2, 3]))))) :=
  ⟨⟨((C2_refresh_reconcile c2Skip [1]).1 (by decide)).1,
    ((C2_refresh_reconcile c2Skip [1]).1 (by decide)).2.2.1⟩,
   ⟨((C2_refresh_reconcile c2Act [2, 3]).2 (by decide)).1,
    ((C2_refresh_reconcile c2Act [2, 3]).2 (by decide)).2.1,
    ((C2_refresh_reconcile c2Act [2, 3]).2 (by decide)).2.2 (2, "c", 7)⟩⟩

theorem delTriples_cons (p : DomEv × List DelEntry)
    (rest : List (DomEv × List DelEntry)) :
    delTriples (p :: rest) =
      p.2.map (fun d => (d.target, p.1, d.callback)) ++ delTriples rest := by
  simp [delTriples]

theorem mem_delTriples_map_push (reg : List (DomEv × List DelEntry))
    (ev : DomEv) (d : DelEntry) (x : Node × DomEv × CB) :
    x ∈ delTriples (reg.map (fun p => if p.1 = ev then (p.1, p.2 ++ [d]) else p))
      ↔ x ∈ delTriples reg ∨
        (x = (d.target, ev, d.callback) ∧ ∃ q ∈ reg, q.1 = ev) := by
  induction reg with
  | nil => simp [delTriples]
  | cons q rest ih =>
    obtain ⟨qe, ql⟩ := q
    by_cases hq : qe = ev
    · subst hq
      have hmap : ((qe, ql) :: rest).map
          (fun p => if p.1 = qe then (p.1, p.2 ++ [d]) else p) =
          (qe, ql ++ [d]) :: rest.map
            (fun p => if p.1 = qe then (p.1, p.2 ++ [d]) else p) := by
        simp
      rw [hmap, delTriples_cons, delTriples_cons, List.mem_append,
        List.mem_append, ih]
      simp only [List.map_append, List.mem_append, List.map_cons,
        List.map_nil, List.mem_singleton]
      constructor
      · rintro ((h | h) | (h | ⟨hx, q', hq', hev⟩))
        · exact Or.inl (Or.inl h)
        · exact Or.inr ⟨h, (qe, ql), List.mem_cons_self _ _, rfl⟩
        · exact Or.inl (Or.inr h)
        · exact Or.inr ⟨hx, q', List.mem_cons_of_mem _ hq', hev⟩
      · rintro ((h | h) | ⟨hx, q', hq', hev⟩)
        · exact Or.inl (Or.inl h)
        · exact Or.inr (Or.inl h)
        · exact Or.inl (Or.inr hx)
    · have hmap : ((qe, ql) :: rest).map
          (fun p => if p.1 = ev then (p.1, p.2 ++ [d]) else p) =
          (qe, ql) :: rest.map
            (fun p => if p.1 = ev then (p.1, p.2 ++ [d]) else p) := by
        simp [hq]
      rw [hmap, delTriples_cons, delTriples_cons, List.mem_append,
        List.mem_append, ih]
      constructor
      · rintro (h | (h | ⟨hx, q', hq', hev⟩))
        · exact Or.inl (Or.inl h)
        · exact Or.inl (Or.inr h)
        · exact Or.inr ⟨hx, q', List.mem_cons_of_mem _ hq', hev⟩
      · rintro ((h | h) | ⟨hx, q', hq', hev⟩)
        · exact Or.inl h
        · exact Or.inr (Or.inl h)
        · rcases List.mem_cons.mp hq' with rfl | hq''
          · exact absurd hev hq
          · exact Or.inr (Or.inr ⟨hx, q', hq'', hev⟩)

theorem delTriples_append (a b : List (DomEv × List DelEntry)) :
    delTriples (a ++ b) = delTriples a ++ delTriples b := by
  simp [delTriples]

theorem mem_delTriples_pushDelKey (reg : List (DomEv × List DelEntry))
    (ev : DomEv) (d : DelEntry) (x : Node × DomEv × CB) :
    x ∈ delTriples (pushDelKey reg ev d) ↔
      x ∈ delTriples reg ∨ x = (d.target, ev, d.callback) := by
  unfold pushDelKey
  by_cases hc : (findVal reg ev).isSome = true
  · rw [if_pos hc, mem_delTriples_map_push]
    have hex : ∃ q ∈ reg, q.1 = ev := (findVal_isSome_iff reg ev).mp hc
    constructor
    · rintro (h | ⟨hx, -⟩)
      exacts [Or.inl h, Or.inr hx]
    · rintro (h | hx)
      exacts [Or.inl h, Or.inr ⟨hx, hex⟩]
  · rw [if_neg hc, mem_delTriples_map_push]
    rw [delTriples_append]
    have hb : delTriples [(ev, ([] : List DelEntry))] = [] := by
      simp [delTriples]
    constructor
    · rintro (h | ⟨hx, -⟩)
      · rw [hb] at h
        exact Or.inl (by simpa using h)
      · exact Or.inr hx
    · rintro (h | hx)
      · exact Or.inl (by rw [hb]; simpa using h)
      · exact Or.inr ⟨hx, (ev, []), List.mem_append.mpr
          (Or.inr (List.mem_singleton.mpr rfl)), rfl⟩

/-- The delegated invariant restated at the level of recorded
(target, event, callback) triples. -/
theorem delegatedInv_iff (s : LNLState) :
    LNL.delegatedInv s ↔ ∀ x ∈ delTriples s.core.delegatedEvents,
      (x ∈ s.core.delAttached ↔ s.items ≠ []) := by
  constructor
  · intro h x hx
    rcases (mem_delTriples _ _).mp hx with ⟨p, hp, d, hd, rfl⟩
    exact h p hp d hd
  · intro h p hp d hd
    exact h _ ((mem_delTriples _ _).mpr ⟨p, hp, d, hd, rfl⟩)

/-- Refresh never touches the delegated registry, and always finishes by
activating every recorded delegated listener when the final matched set
is non-empty, or deactivating them all when it is empty. -/
theorem refresh_delegated_shape (s : LNLState) (selected : List Node) :
    (LNL.refresh s selected).1.core.delegatedEvents = s.core.delegatedEvents ∧
    (((LNL.refresh s selected).1.items ≠ [] ∧
        (LNL.refresh s selected).1.core.delAttached =
          attachDel s.core.delegatedEvents s.core.delAttached) ∨
      ((LNL.refresh s selected).1.items = [] ∧
        (LNL.refresh s selected).1.core.delAttached =
          detachDel s.core.delegatedEvents s.core.delAttached)) := by
  by_cases hcond : 0 < (diffNodeList selected s.items).length ∨
      0 < (diffNodeList s.items selected).length
  · by_cases hsel : 0 < selected.length
    · have hr : LNL.refresh s selected =
          ({ s with
              core := { s.core with
                attached := attachPairs s.core.eventListeners
                  (diffNodeList selected s.items)
                  (detachPairs s.core.eventListeners
                    (diffNodeList s.items selected) s.core.attached),
                delAttached := attachDel s.core.delegatedEvents
                  s.core.delAttached },
              items := selected },
           [Act.refreshRun, Act.fire .elDetach, Act.fire .elAttach,
            Act.fireUpdate (diffNodeList selected s.items)
              (diffNodeList s.items selected), Act.fire .delAttach]) := by
        simp [LNL.refresh, LNL.detachEventListeners, LNL.attachEventListeners,
          Obs.attachDelegatedEventListeners, hcond, hsel]
      rw [hr]
      exact ⟨rfl, Or.inl ⟨List.length_pos.mp hsel, rfl⟩⟩
    · have hr : LNL.refresh s selected =
          ({ s with
              core := { s.core with
                attached := attachPairs s.core.eventListeners
                  (diffNodeList selected s.items)
                  (detachPairs s.core.eventListeners
                    (diffNodeList s.items selected) s.core.attached),
                delAttached := detachDel s.core.delegatedEvents
                  s.core.delAttached },
              items := selected },
           [Act.refreshRun, Act.fire .elDetach, Act.fire .elAttach,
            Act.fireUpdate (diffNodeList selected s.items)
              (diffNodeList s.items selected), Act.fire .delDetach]) := by
        simp [LNL.refresh, LNL.detachEventListeners, LNL.attachEventListeners,
          Obs.detachDelegatedEventListeners, hcond, hsel]
      rw [hr]
      refine ⟨rfl, Or.inr ⟨?_, rfl⟩⟩
      exact not_not.mp (fun h => hsel (List.length_pos.mpr h))
  · by_cases hit : 0 < s.items.length
    · have hr : LNL.refresh s selected =
          ({ s with core := { s.core with
              delAttached := attachDel s.core.delegatedEvents s.core.delAttached } },
           [Act.refreshRun, Act.fire .delAttach]) := by
        simp [LNL.refresh, hcond, hit, Obs.attachDelegatedEventListeners]
      rw [hr]
      exact ⟨rfl, Or.inl ⟨List.length_pos.mp hit, rfl⟩⟩
    · have hr : LNL.refresh s selected =
          ({ s with core := { s.core with
              delAttached := detachDel s.core.delegatedEvents s.core.delAttached } },
           [Act.refreshRun, Act.fire .delDetach]) := by
        simp [LNL.refresh, hcond, hit, Obs.detachDelegatedEventListeners]
      rw [hr]
      refine ⟨rfl, Or.inr ⟨?_, rfl⟩⟩
      exact not_not.mp (fun h => hit (List.length_pos.mpr h))

/-- C3: every refresh (src/src/live-node-list.js lines 170-174)
establishes the delegated-listener invariant — each registered delegated
listener is attached to its target exactly when the matched set is
non-empty — and `addDelegatedEventListener` (src/unnamed/part_000 lines
156-177) preserves it, attaching the new listener immediately only when
the matched set is non-empty.  `delegatedNoStale` (the DOM never holds a
delegated attachment that the registry does not record, true in every
reachable state) is preserved by both operations. -/
theorem C3_delegated_invariant :
    (∀ (s : LNLState) (selected : List Node),
      LNL.delegatedInv (LNL.refresh s selected).1 ∧
      (LNL.delegatedNoStale s →
        LNL.delegatedNoStale (LNL.refresh s selected).1)) ∧
    (∀ (s : LNLState) (target : Node) (ev : DomEv) (cb : JSVal) (opts : Nat),
      cb.isFunction = true → LNL.delegatedInv s → LNL.delegatedNoStale s →
      LNL.delegatedInv (LNL.addDelegatedEventListener s target ev cb opts).2.1 ∧
      LNL.delegatedNoStale
        (LNL.addDelegatedEventListener s target ev cb opts).2.1) := by
  constructor
  · intro s selected
    obtain ⟨hreg, hcase⟩ := refresh_delegated_shape s selected
    constructor
    · rw [delegatedInv_iff, hreg]
      intro x hx
      rcases hcase with ⟨hne, hatt⟩ | ⟨hnil, hatt⟩
      · rw [hatt, mem_attachDel]
        exact ⟨fun _ => hne, fun _ => Or.inr hx⟩
      · rw [hatt, mem_detachDel]
        constructor
        · rintro ⟨-, hno⟩
          exact absurd hx hno
        · intro h
          exact absurd hnil h
    · intro hns x hx
      rw [hreg]
      rcases hcase with ⟨-, hatt⟩ | ⟨-, hatt⟩
      · rw [hatt, mem_attachDel] at hx
        rcases hx with h | h
        · exact hns _ h
        · exact h
      · rw [hatt, mem_detachDel] at hx
        exact hns _ hx.1
  · intro s target ev cb opts hf hinv hns
    by_cases hlen : 0 < s.items.length
    · have hr : (LNL.addDelegatedEventListener s target ev cb opts).2.1 =
          { s with core := { s.core with
              delegatedEvents := pushDelKey s.core.delegatedEvents ev
                ⟨target, cb.fid, opts⟩,
              delAttached := insert (target, ev, cb.fid) s.core.delAttached } } := by
        simp [LNL.addDelegatedEventListener, Obs.addDelegatedEventListener,
          hf, hlen]
      rw [hr]
      have hne : s.items ≠ [] := List.length_pos.mp hlen
      constructor
      · rw [delegatedInv_iff]
        dsimp only
        intro x hx
        rw [mem_delTriples_pushDelKey] at hx
        rcases hx with h | rfl
        · exact ⟨fun _ => hne,
            fun _ => Finset.mem_insert_of_mem
              (((delegatedInv_iff s).mp hinv x h).mpr hne)⟩
        · exact ⟨fun _ => hne, fun _ => Finset.mem_insert_self _ _⟩
      · intro x hx
        dsimp only at hx ⊢
        rw [mem_delTriples_pushDelKey]
        rcases Finset.mem_insert.mp hx with rfl | h
        · exact Or.inr rfl
        · exact Or.inl (hns _ h)
    · have hr : (LNL.addDelegatedEventListener s target ev cb opts).2.1 =
          { s with core := { s.core with
              delegatedEvents := pushDelKey s.core.delegatedEvents ev
                ⟨target, cb.fid, opts⟩ } } := by
        simp [LNL.addDelegatedEventListener, Obs.addDelegatedEventListener,
          hf, hlen]
      rw [hr]
      have hnil : s.items = [] :=
        not_not.mp (fun h => hlen (List.length_pos.mpr h))
      constructor
      · rw [delegatedInv_iff]
        dsimp only
        intro x hx
        rw [mem_delTriples_pushDelKey] at hx
        rcases hx with h | rfl
        · constructor
          · intro hmem
            exact absurd hnil (((delegatedInv_iff s).mp hinv x h).mp hmem)
          · intro hcontra
            exact absurd hnil hcontra
        · constructor
          · intro hmem
            exact absurd hnil
              (((delegatedInv_iff s).mp hinv _ (hns _ hmem)).mp hmem)
          · intro hcontra
            exact absurd hnil hcontra
      · intro x hx
        dsimp only at hx ⊢
        rw [mem_delTriples_pushDelKey]
        exact Or.inl (hns _ hx)

/-- A concrete collection state with one registered and attached
delegated listener, used as the C3 witness input. -/
def c3W : LNLState :=
  { core := { ObsCore.init (some 0) with
      delegatedEvents := [("c", [⟨9, 8, 0⟩])],
      delAttached := {(9, "c", 8)} },
    items := [4] }

theorem C3_delegated_invariant_witness :
    LNL.delegatedInv (LNL.refresh c3W [4]).1 ∧
    LNL.delegatedInv (LNL.addDelegatedEventListener c3W 9 "c"
      (JSVal.func 8) 0).2.1 :=
  ⟨(C3_delegated_invariant.1 c3W [4]).1,
   (C3_delegated_invariant.2 c3W 9 "c" (JSVal.func 8) 0 (by decide)
      (by unfold LNL.delegatedInv; decide)
      (by unfold LNL.delegatedNoStale; decide)).1⟩
